import Mathlib

/-!  Verification of the checkers rules engine in `cogs/games/checkers.py`.

The Python module represents a board as a flat list of 64 one-character
cells (`' '` empty, `'b'`/`'w'` men, `'B'`/`'W'` kings), with
`BLACK, WHITE = False, True` and `PIECES = 'bw'` (so `PIECES[turn]` is
`'b'` for black and `'w'` for white).  Squares are indexed `i = y * 8 + x`
with column letters `X = 'abcdefgh'` and row digits `Y = '87654321'`.

The embedding below mirrors the source definitions.  Python's move/capture
lookup dictionaries (`_MOVES`, `_CAPTURES`) are embedded as total functions
computing, at each key, exactly the list the dictionary stores there
(the dictionaries are built from the same `_moves` / `_captures` formulas
over every dark square; keys absent from a dictionary would be a Python
`KeyError`, which is unreachable for the occupied squares the engine
queries).  The recursive generator `jump_helper` is embedded with an
explicit fuel argument; the `captured` set grows by one fresh on-board
square (< 64) per recursion level, so fuel 65 is never exhausted on the
recursion paths the Python generator actually takes.  `more_itertools.spy`
(used only to test whether a generator is empty) is embedded as an
`isEmpty` test.  -/

set_option maxRecDepth 4000

namespace Checkers

/-- Board: flat list of 64 one-character cells, as in the source. -/
abbrev Board := List Char

/-- Source: `PIECES = 'bw'`, indexed by the boolean turn (`BLACK, WHITE = False, True`). -/
def PIECES (t : Bool) : Char := if t then 'w' else 'b'

/-- Source: `_is_king = str.isupper` (kings are the upper-case cells `'B'`, `'W'`). -/
def isKing (c : Char) : Bool := c.isUpper

/-- Source: `7 * self.turn` (Python coerces the turn boolean to an integer). -/
def turnNat (t : Bool) : Nat := if t then 1 else 0

/-- Source: `_to_i(x, y) = y * 8 + x`. -/
def to_i (x y : Int) : Int := y * 8 + x

/-- Source: `_in_range(x, y) = 0 <= x < 8 and 0 <= y < 8`. -/
def in_range (x y : Int) : Bool :=
  decide (0 ≤ x) && decide (x < 8) && decide (0 ≤ y) && decide (y < 8)

/-- Source: `_moves(x, y, dy)`: on-board one-step diagonal destinations
(`dx` ranges over `(-1, 1)` in that order). -/
def movesFor (x y dy : Int) : List Nat :=
  ([-1, 1] : List Int).filterMap fun dx =>
    if in_range (x + dx) (y + dy) then some (to_i (x + dx) (y + dy)).toNat else none

/-- Source: `_captures(x, y, dy)`: (over-square, landing-square) pairs with both
squares on the board (`dx` ranges over `(-1, 1)` in that order). -/
def capturesFor (x y dy : Int) : List (Nat × Nat) :=
  ([-1, 1] : List Int).filterMap fun dx =>
    if in_range (x + dx) (y + dy) && in_range (x + dx * 2) (y + dy * 2) then
      some ((to_i (x + dx) (y + dy)).toNat, (to_i (x + dx * 2) (y + dy * 2)).toNat)
    else none

/-- The `_MOVES` dictionary of the source, as a function: black men use `dy = 1`,
white men `dy = -1`, and kings get the white list concatenated with the black
list (`moves[WH_PIECE].get(k, []) + moves[BK_PIECE].get(k, [])`). -/
def MOVES (piece : Char) (i : Nat) : List Nat :=
  let x : Int := (i % 8 : Nat)
  let y : Int := (i / 8 : Nat)
  if piece = 'b' then movesFor x y 1
  else if piece = 'w' then movesFor x y (-1)
  else movesFor x y (-1) ++ movesFor x y 1

/-- The `_CAPTURES` dictionary of the source, as a function (same shape as `MOVES`). -/
def CAPTURES (piece : Char) (i : Nat) : List (Nat × Nat) :=
  let x : Int := (i % 8 : Nat)
  let y : Int := (i / 8 : Nat)
  if piece = 'b' then capturesFor x y 1
  else if piece = 'w' then capturesFor x y (-1)
  else capturesFor x y (-1) ++ capturesFor x y 1

/-- Source: `X = 'abcdefgh'`. -/
def COLS : List Char := ['a', 'b', 'c', 'd', 'e', 'f', 'g', 'h']

/-- Source: `Y = '87654321'`. -/
def ROWS : List Char := ['8', '7', '6', '5', '4', '3', '2', '1']

/-- Source: `_i_to_xy(i)`: `y, x = divmod(i, 8); return X[x] + Y[y]`. -/
def i_to_xy (i : Nat) : List Char := [COLS.getD (i % 8) 'a', ROWS.getD (i / 8) '8']

/-- Source: `_xy_to_i(xy) = _to_i(X.index(x), Y.index(y))`. -/
def xy_to_i (xy : List Char) : Nat :=
  8 * ROWS.indexOf (xy.getD 1 '8') + COLS.indexOf (xy.getD 0 'a')

/-- A capture chain of square indices rendered as the source renders it:
`''.join(map(_i_to_xy, s))`. -/
def chainStr (c : List Nat) : List Char := c.flatMap i_to_xy

/-- Source: `_STARTING_BOARD`. -/
def STARTING_BOARD : Board :=
  [' ', 'b', ' ', 'b', ' ', 'b', ' ', 'b',
   'b', ' ', 'b', ' ', 'b', ' ', 'b', ' ',
   ' ', 'b', ' ', 'b', ' ', 'b', ' ', 'b',
   ' ', ' ', ' ', ' ', ' ', ' ', ' ', ' ',
   ' ', ' ', ' ', ' ', ' ', ' ', ' ', ' ',
   'w', ' ', 'w', ' ', 'w', ' ', 'w', ' ',
   ' ', 'w', ' ', 'w', ' ', 'w', ' ', 'w',
   'w', ' ', 'w', ' ', 'w', ' ', 'w', ' ']

/-- The mutable state of the `Board` class: the cell list, the half-move (ply)
counter, and the turn flag. -/
structure GameState where
  board : Board
  half_moves : Nat
  turn : Bool
  deriving DecidableEq

/-- Source: `Board.__init__`: starting layout, zero half-moves, white to move. -/
def initGS : GameState := { board := STARTING_BOARD, half_moves := 0, turn := true }

/-- Source: `_find_all_pieces(colour)`: indices whose cell lower-cases to `colour`. -/
def findAllPieces (b : Board) (colour : Char) : List Nat :=
  (List.range b.length).filter fun i => (b.getD i ' ').toLower == colour

/-- The guard sequence of the loop body in `jump_helper`: the over-square holds
an opponent piece, it was not captured earlier in this chain, and the landing
square is empty (the three `continue` tests, in source order). -/
def validTarget (b : Board) (turn : Bool) (captured : List Nat) (p : Nat × Nat) : Bool :=
  ((b.getD p.1 ' ').toLower == PIECES (!turn)) && !(decide (p.1 ∈ captured))
    && (b.getD p.2 ' ' == ' ')

/-- Source: `jump_helper(square, captured)`.  `caps` is the `captures` table
fixed at `jumps_from` entry (`_CAPTURES[board[square]]` of the origin square).
The Python recursion terminates because `captured` gains a fresh board square
each level; `fuel` makes that explicit.  `spy(...)` testing whether the
recursive generator is empty becomes an `isEmpty` test. -/
def jumpHelper (b : Board) (turn : Bool) (caps : Nat → List (Nat × Nat)) :
    Nat → Nat → List Nat → List (List Nat)
  | 0, _, _ => []
  | fuel + 1, square, captured =>
    (caps square).flatMap fun p =>
      if validTarget b turn captured p then
        if !isKing (b.getD square ' ') && (square / 8 == 7 * turnNat turn) then
          [[square, p.2]]
        else
          if (jumpHelper b turn caps fuel p.2 (p.1 :: captured)).isEmpty then
            [[square, p.2]]
          else
            (jumpHelper b turn caps fuel p.2 (p.1 :: captured)).map fun s => square :: s
      else []

/-- Source: `jumps_from(square)` before string rendering: all capture chains
from `square`, using the capture table of the piece currently on `square`. -/
def jumpsFromIdx (b : Board) (turn : Bool) (square : Nat) : List (List Nat) :=
  jumpHelper b turn (CAPTURES (b.getD square ' ')) 65 square []

/-- Source: `jumps()` before string rendering: chains from every piece of the
side to move, in piece-index order. -/
def jumpsIdx (st : GameState) : List (List Nat) :=
  (findAllPieces st.board (PIECES st.turn)).flatMap (jumpsFromIdx st.board st.turn)

/-- Simple (non-capture) moves of `legal_moves`, as index pairs: for each piece
of the side to move, each `_MOVES` destination whose cell is empty. -/
def simpleMovesIdx (st : GameState) : List (List Nat) :=
  (findAllPieces st.board (PIECES st.turn)).flatMap fun i =>
    ((MOVES (st.board.getD i ' ') i).filter fun e2 => st.board.getD e2 ' ' == ' ').map
      fun e2 => [i, e2]

/-- Source: `legal_moves()` before string rendering: if any jump exists, only
the jumps are generated; otherwise the simple moves are. -/
def legalMovesIdx (st : GameState) : List (List Nat) :=
  if (jumpsIdx st).isEmpty then simpleMovesIdx st else jumpsIdx st

/-- Source: `legal_moves()`: each generated sequence rendered as a coordinate
string (`_i_to_xy(i) + _i_to_xy(end)` for simple moves, `''.join(...)` for
chains). -/
def legal_moves (st : GameState) : List (List Char) :=
  (legalMovesIdx st).map chainStr

/-- Source: `sliced(move, 2)`: the move text cut into two-character blocks. -/
def sliced : List Char → List (List Char)
  | [] => []
  | [a] => [[a]]
  | a :: bc :: rest => [a, bc] :: sliced rest

/-- The body of the capture-removal loop of `Board.move`: when a consecutive
pair is two steps apart (index distance 18 or 14, `difference = abs(before -
after)` written as `max - min`), blank the square between them
(`min(before, after) + difference // 2`). -/
def clearJumped (bb : Board) (pr : Nat × Nat) : Board :=
  let d := max pr.1 pr.2 - min pr.1 pr.2
  if d == 18 || d == 14 then bb.set (min pr.1 pr.2 + d / 2) ' ' else bb

/-- The successful branch of `Board.move`: parse the squares, promote when the
final square is on the mover's promotion rank (`end >> 3 == 7 * (not turn)`),
blank the midpoint of every two-step (distance 14 or 18) pair, move the piece,
bump the ply counter, flip the turn. -/
def applyMove (st : GameState) (mv : List Char) : GameState :=
  let squares := (sliced mv).map xy_to_i
  let eSq := squares.getD (squares.length - 1) 0
  let s0 := squares.getD 0 0
  let piece0 := st.board.getD s0 ' '
  let piece :=
    if (eSq / 8 == 7 * turnNat (!st.turn)) && !isKing piece0 then piece0.toUpper else piece0
  let b1 := (squares.zip squares.tail).foldl clearJumped st.board
  let b2 := (b1.set s0 ' ').set eSq piece
  { board := b2, half_moves := st.half_moves + 1, turn := !st.turn }

/-- Source: `Board.move`: raise `ValueError` (leaving the state untouched, as
the membership check is the first statement) unless the text is one of the
generated legal moves; otherwise mutate.  The error value carries the state as
it stands when the exception is raised. -/
def move (st : GameState) (mv : List Char) : Except GameState GameState :=
  if mv ∈ legal_moves st then Except.ok (applyMove st mv) else Except.error st

/-- The captured squares of a chain, computed the way `Board.move` removes
them: the midpoint `min + difference // 2` of each consecutive pair. -/
def midSquare (a b : Nat) : Nat := min a b + (max a b - min a b) / 2

/-- All consecutive-pair midpoints of a chain. -/
def capturedSquares (c : List Nat) : List Nat :=
  (c.zip c.tail).map fun pr => midSquare pr.1 pr.2

/-- The mover's promotion rank (`7 * (not turn)`): row 0 for white, row 7 for black. -/
def promoRow (t : Bool) : Nat := 7 * turnNat (!t)

/-- Test position: a white king on c3 (index 42) with black men on d2, f2 and
f4 (indices 51, 53, 37); white to move.  The triple capture
c3xe1xg3xe5 is geometrically available. -/
def bdKing : Board :=
  [' ', ' ', ' ', ' ', ' ', ' ', ' ', ' ',
   ' ', ' ', ' ', ' ', ' ', ' ', ' ', ' ',
   ' ', ' ', ' ', ' ', ' ', ' ', ' ', ' ',
   ' ', ' ', ' ', ' ', ' ', ' ', ' ', ' ',
   ' ', ' ', ' ', ' ', ' ', 'b', ' ', ' ',
   ' ', ' ', 'W', ' ', ' ', ' ', ' ', ' ',
   ' ', ' ', ' ', 'b', ' ', 'b', ' ', ' ',
   ' ', ' ', ' ', ' ', ' ', ' ', ' ', ' ']

/-- Game state for `bdKing`, white to move. -/
def stKing : GameState := { board := bdKing, half_moves := 0, turn := true }

/-- Test position: a white man on c1 (index 58, white's own back rank) with
black men on d2 and f4 (indices 51 and 37); white to move.  The double capture
c1xe3xg5 is geometrically available. -/
def bdBackRank : Board :=
  [' ', ' ', ' ', ' ', ' ', ' ', ' ', ' ',
   ' ', ' ', ' ', ' ', ' ', ' ', ' ', ' ',
   ' ', ' ', ' ', ' ', ' ', ' ', ' ', ' ',
   ' ', ' ', ' ', ' ', ' ', ' ', ' ', ' ',
   ' ', ' ', ' ', ' ', ' ', 'b', ' ', ' ',
   ' ', ' ', ' ', ' ', ' ', ' ', ' ', ' ',
   ' ', ' ', ' ', 'b', ' ', ' ', ' ', ' ',
   ' ', ' ', 'w', ' ', ' ', ' ', ' ', ' ']

/-- Game state for `bdBackRank`, white to move. -/
def stBackRank : GameState := { board := bdBackRank, half_moves := 0, turn := true }

/-- Test position: a white man on c3 (index 42) with black men on d4 and f6
(indices 35 and 21); white to move.  The full double jump c3xe5xg7 is the
only capture chain. -/
def bdDouble : Board :=
  [' ', ' ', ' ', ' ', ' ', ' ', ' ', ' ',
   ' ', ' ', ' ', ' ', ' ', ' ', ' ', ' ',
   ' ', ' ', ' ', ' ', ' ', 'b', ' ', ' ',
   ' ', ' ', ' ', ' ', ' ', ' ', ' ', ' ',
   ' ', ' ', ' ', 'b', ' ', ' ', ' ', ' ',
   ' ', ' ', 'w', ' ', ' ', ' ', ' ', ' ',
   ' ', ' ', ' ', ' ', ' ', ' ', ' ', ' ',
   ' ', ' ', ' ', ' ', ' ', ' ', ' ', ' ']

/-- Game state for `bdDouble`, white to move. -/
def stDouble : GameState := { board := bdDouble, half_moves := 0, turn := true }

/-- Test position: a white man on c6 (index 18) with a black man on b7
(index 9); white to move.  The single capture c6xa8 lands on white's
promotion rank. -/
def bdPromote : Board :=
  [' ', ' ', ' ', ' ', ' ', ' ', ' ', ' ',
   ' ', 'b', ' ', ' ', ' ', ' ', ' ', ' ',
   ' ', ' ', 'w', ' ', ' ', ' ', ' ', ' ',
   ' ', ' ', ' ', ' ', ' ', ' ', ' ', ' ',
   ' ', ' ', ' ', ' ', ' ', ' ', ' ', ' ',
   ' ', ' ', ' ', ' ', ' ', ' ', ' ', ' ',
   ' ', ' ', ' ', ' ', ' ', ' ', ' ', ' ',
   ' ', ' ', ' ', ' ', ' ', ' ', ' ', ' ']

/-- Game state for `bdPromote`, white to move. -/
def stPromote : GameState := { board := bdPromote, half_moves := 0, turn := true }

/-- Whether a position anywhere on the board offers the side to move a capture:
some occupied square of that side has a capture-table pair whose over-square
holds an opponent piece and whose landing square is empty (step 1 of the
generator's capture detection). -/
def captureAvailable (st : GameState) : Prop :=
  ∃ i ∈ findAllPieces st.board (PIECES st.turn),
    ∃ p ∈ CAPTURES (st.board.getD i ' ') i,
      (st.board.getD p.1 ' ').toLower = PIECES (!st.turn) ∧ st.board.getD p.2 ' ' = ' '

instance (st : GameState) : Decidable (captureAvailable st) := by
  unfold captureAvailable
  infer_instance

/-! ### Arithmetic facts about the precomputed tables -/

lemma mem_capturesFor {x y dy : Int} {p : Nat × Nat} (h : p ∈ capturesFor x y dy) :
    ∃ dx : Int, (dx = -1 ∨ dx = 1) ∧ in_range (x + dx) (y + dy) = true ∧
      in_range (x + dx * 2) (y + dy * 2) = true ∧
      p = ((to_i (x + dx) (y + dy)).toNat, (to_i (x + dx * 2) (y + dy * 2)).toNat) := by
  simp only [capturesFor, List.mem_filterMap] at h
  obtain ⟨dx, hdx, hsome⟩ := h
  have hdx' : dx = -1 ∨ dx = 1 := by simpa using hdx
  refine ⟨dx, hdx', ?_⟩
  by_cases hc : (in_range (x + dx) (y + dy) && in_range (x + dx * 2) (y + dy * 2)) = true
  · rw [if_pos hc] at hsome
    simp only [Option.some.injEq] at hsome
    simp only [Bool.and_eq_true] at hc
    exact ⟨hc.1, hc.2, hsome.symm⟩
  · rw [if_neg hc] at hsome
    exact absurd hsome (by simp)

/-- On-grid coordinates: `_to_i` of in-range coordinates, decomposed. -/
lemma toNat_grid {a b : Int} (ha : 0 ≤ a) (ha8 : a < 8) (hb : 0 ≤ b) (hb8 : b < 8) :
    (to_i a b).toNat = b.toNat * 8 + a.toNat ∧ a.toNat < 8 ∧ b.toNat < 8 := by
  unfold to_i
  omega

lemma capturesFor_facts {i : Nat} {dy : Int} (hdy : dy = 1 ∨ dy = -1) {p : Nat × Nat}
    (hp : p ∈ capturesFor ((i % 8 : Nat) : Int) ((i / 8 : Nat) : Int) dy) :
    p.1 < 64 ∧ p.2 < 64 ∧ 2 * p.1 = i + p.2 ∧ p.2 ≠ i ∧
      (max i p.2 - min i p.2 = 14 ∨ max i p.2 - min i p.2 = 18) ∧
      (p.2 / 8 + p.2 % 8) % 2 = (i / 8 + i % 8) % 2 := by
  obtain ⟨dx, hdx, h1, h2, hpe⟩ := mem_capturesFor hp
  simp only [in_range, Bool.and_eq_true, decide_eq_true_eq] at h1 h2
  obtain ⟨⟨⟨b1, b2⟩, b3⟩, b4⟩ := h1
  obtain ⟨⟨⟨c1, c2⟩, c3⟩, c4⟩ := h2
  subst hpe
  have g1 := toNat_grid b1 b2 b3 b4
  have g2 := toNat_grid c1 c2 c3 c4
  rcases hdy with rfl | rfl <;> rcases hdx with rfl | rfl <;> omega

/-- Every pair of the `_CAPTURES` table of any piece kind: both squares are on
the board, the over-square is the arithmetic midpoint of origin and landing,
the origin/landing index distance is 14 or 18, and landing preserves the
row-plus-column parity of the origin. -/
lemma captures_pair_facts {piece : Char} {i : Nat} {p : Nat × Nat}
    (hp : p ∈ CAPTURES piece i) :
    p.1 < 64 ∧ p.2 < 64 ∧ 2 * p.1 = i + p.2 ∧ p.2 ≠ i ∧
      (max i p.2 - min i p.2 = 14 ∨ max i p.2 - min i p.2 = 18) ∧
      (p.2 / 8 + p.2 % 8) % 2 = (i / 8 + i % 8) % 2 := by
  simp only [CAPTURES] at hp
  split at hp
  · exact capturesFor_facts (Or.inl rfl) hp
  · split at hp
    · exact capturesFor_facts (Or.inr rfl) hp
    · rcases List.mem_append.mp hp with h | h
      · exact capturesFor_facts (Or.inr rfl) h
      · exact capturesFor_facts (Or.inl rfl) h

/-- A man's capture table never has an entry at that man's promotion rank:
white men (`dy = -1`) need row at least 1, black men (`dy = 1`) row at most 6. -/
lemma captures_man_row {t : Bool} {i : Nat} {p : Nat × Nat}
    (hp : p ∈ CAPTURES (PIECES t) i) : i / 8 ≠ promoRow t := by
  cases t with
  | false =>
    have hp' : p ∈ capturesFor ((i % 8 : Nat) : Int) ((i / 8 : Nat) : Int) 1 := hp
    obtain ⟨dx, hdx, h1, h2, hpe⟩ := mem_capturesFor hp'
    simp only [in_range, Bool.and_eq_true, decide_eq_true_eq] at h1
    show i / 8 ≠ 7
    omega
  | true =>
    have hp' : p ∈ capturesFor ((i % 8 : Nat) : Int) ((i / 8 : Nat) : Int) (-1) := hp
    obtain ⟨dx, hdx, h1, h2, hpe⟩ := mem_capturesFor hp'
    simp only [in_range, Bool.and_eq_true, decide_eq_true_eq] at h1
    show i / 8 ≠ 0
    omega

lemma mem_movesFor {x y dy : Int} {e : Nat} (h : e ∈ movesFor x y dy) :
    ∃ dx : Int, (dx = -1 ∨ dx = 1) ∧ in_range (x + dx) (y + dy) = true ∧
      e = (to_i (x + dx) (y + dy)).toNat := by
  simp only [movesFor, List.mem_filterMap] at h
  obtain ⟨dx, hdx, hsome⟩ := h
  have hdx' : dx = -1 ∨ dx = 1 := by simpa using hdx
  refine ⟨dx, hdx', ?_⟩
  by_cases hc : in_range (x + dx) (y + dy) = true
  · rw [if_pos hc] at hsome
    simp only [Option.some.injEq] at hsome
    exact ⟨hc, hsome.symm⟩
  · rw [if_neg hc] at hsome
    exact absurd hsome (by simp)

lemma movesFor_facts {i : Nat} {dy : Int} (hdy : dy = 1 ∨ dy = -1) {e : Nat}
    (he : e ∈ movesFor ((i % 8 : Nat) : Int) ((i / 8 : Nat) : Int) dy) :
    e < 64 ∧ (e / 8 + e % 8) % 2 = (i / 8 + i % 8) % 2 ∧
      (max i e - min i e = 7 ∨ max i e - min i e = 9) := by
  obtain ⟨dx, hdx, h1, hee⟩ := mem_movesFor he
  simp only [in_range, Bool.and_eq_true, decide_eq_true_eq] at h1
  obtain ⟨⟨⟨b1, b2⟩, b3⟩, b4⟩ := h1
  subst hee
  have g1 := toNat_grid b1 b2 b3 b4
  rcases hdy with rfl | rfl <;> rcases hdx with rfl | rfl <;> omega

/-- Every destination of the `_MOVES` table of any piece kind: on the board,
and at index distance 7 or 9 (one diagonal step) from the origin. -/
lemma moves_dest_facts {piece : Char} {i : Nat} {e : Nat} (he : e ∈ MOVES piece i) :
    e < 64 ∧ (e / 8 + e % 8) % 2 = (i / 8 + i % 8) % 2 ∧
      (max i e - min i e = 7 ∨ max i e - min i e = 9) := by
  simp only [MOVES] at he
  split at he
  · exact movesFor_facts (Or.inl rfl) he
  · split at he
    · exact movesFor_facts (Or.inr rfl) he
    · rcases List.mem_append.mp he with h | h
      · exact movesFor_facts (Or.inr rfl) h
      · exact movesFor_facts (Or.inl rfl) h

/-! ### Structural facts about the chain generator -/

lemma validTarget_spec {b : Board} {turn : Bool} {captured : List Nat} {p : Nat × Nat}
    (h : validTarget b turn captured p = true) :
    (b.getD p.1 ' ').toLower = PIECES (!turn) ∧ p.1 ∉ captured ∧ b.getD p.2 ' ' = ' ' := by
  simp only [validTarget, Bool.and_eq_true, beq_iff_eq, Bool.not_eq_true',
    decide_eq_false_iff_not] at h
  exact ⟨h.1.1, h.1.2, h.2⟩

lemma jumpHelper_succ (b : Board) (turn : Bool) (caps : Nat → List (Nat × Nat))
    (fuel square : Nat) (captured : List Nat) :
    jumpHelper b turn caps (fuel + 1) square captured =
      (caps square).flatMap fun p =>
        if validTarget b turn captured p then
          if !isKing (b.getD square ' ') && (square / 8 == 7 * turnNat turn) then
            [[square, p.2]]
          else
            if (jumpHelper b turn caps fuel p.2 (p.1 :: captured)).isEmpty then
              [[square, p.2]]
            else
              (jumpHelper b turn caps fuel p.2 (p.1 :: captured)).map fun s => square :: s
        else [] := rfl

/-- Every generated chain starts at the call's square and has at least two
squares. -/
lemma jumpHelper_shape (b : Board) (turn : Bool) (caps : Nat → List (Nat × Nat)) :
    ∀ fuel square captured c, c ∈ jumpHelper b turn caps fuel square captured →
      ∃ j s, c = square :: j :: s := by
  intro fuel
  induction fuel with
  | zero =>
    intro sq cap c hc
    simp only [jumpHelper] at hc
    exact absurd hc (List.not_mem_nil c)
  | succ n ih =>
    intro sq cap c hc
    rw [jumpHelper_succ, List.mem_flatMap] at hc
    obtain ⟨p, hp, hc⟩ := hc
    split at hc
    · split at hc
      · simp only [List.mem_singleton] at hc
        exact ⟨p.2, [], hc⟩
      · split at hc
        · simp only [List.mem_singleton] at hc
          exact ⟨p.2, [], hc⟩
        · rw [List.mem_map] at hc
          obtain ⟨s, hs, rfl⟩ := hc
          obtain ⟨j', s', rfl⟩ := ih p.2 (p.1 :: cap) s hs
          exact ⟨p.2, j' :: s', rfl⟩
    · exact absurd hc (List.not_mem_nil c)

/-- Every consecutive pair of a generated chain is origin/landing of some
capture-table entry at the earlier square. -/
lemma jumpHelper_steps (b : Board) (turn : Bool) (caps : Nat → List (Nat × Nat)) :
    ∀ fuel square captured c, c ∈ jumpHelper b turn caps fuel square captured →
      ∀ k, k + 1 < c.length →
        ∃ jo, (jo, c.getD (k + 1) 0) ∈ caps (c.getD k 0) := by
  intro fuel
  induction fuel with
  | zero =>
    intro sq cap c hc
    simp only [jumpHelper] at hc
    exact absurd hc (List.not_mem_nil c)
  | succ n ih =>
    intro sq cap c hc k hk
    rw [jumpHelper_succ, List.mem_flatMap] at hc
    obtain ⟨p, hp, hc⟩ := hc
    split at hc
    · split at hc
      · simp only [List.mem_singleton] at hc
        subst hc
        have hk0 : k = 0 := by
          simp only [List.length_cons, List.length_nil] at hk
          omega
        subst hk0
        exact ⟨p.1, hp⟩
      · split at hc
        · simp only [List.mem_singleton] at hc
          subst hc
          have hk0 : k = 0 := by
            simp only [List.length_cons, List.length_nil] at hk
            omega
          subst hk0
          exact ⟨p.1, hp⟩
        · rw [List.mem_map] at hc
          obtain ⟨s, hs, rfl⟩ := hc
          obtain ⟨j', s', hshape⟩ := jumpHelper_shape b turn caps n p.2 (p.1 :: cap) s hs
          cases k with
          | zero =>
            simp only [List.getD_cons_zero, List.getD_cons_succ]
            rw [hshape]
            simp only [List.getD_cons_zero]
            exact ⟨p.1, hp⟩
          | succ k' =>
            simp only [List.getD_cons_succ]
            exact ih p.2 (p.1 :: cap) s hs k'
              (by simp only [List.length_cons] at hk; omega)
    · exact absurd hc (List.not_mem_nil c)

lemma midSquare_eq {a b m : Nat} (h : 2 * m = a + b) : midSquare a b = m := by
  unfold midSquare
  omega

/-- The captured squares of a generated chain are pairwise distinct and
disjoint from the `captured` accumulator of the call. -/
lemma jumpHelper_nodup (b : Board) (turn : Bool) (caps : Nat → List (Nat × Nat))
    (Hmid : ∀ s p, p ∈ caps s → 2 * p.1 = s + p.2) :
    ∀ fuel square captured c, c ∈ jumpHelper b turn caps fuel square captured →
      (capturedSquares c).Nodup ∧ ∀ j ∈ capturedSquares c, j ∉ captured := by
  intro fuel
  induction fuel with
  | zero =>
    intro sq cap c hc
    simp only [jumpHelper] at hc
    exact absurd hc (List.not_mem_nil c)
  | succ n ih =>
    intro sq cap c hc
    rw [jumpHelper_succ, List.mem_flatMap] at hc
    obtain ⟨p, hp, hc⟩ := hc
    split at hc
    case isTrue hv =>
      have hnotin : p.1 ∉ cap := (validTarget_spec hv).2.1
      have hmid : midSquare sq p.2 = p.1 := midSquare_eq (Hmid sq p hp)
      split at hc
      · simp only [List.mem_singleton] at hc
        subst hc
        refine ⟨by simp [capturedSquares], ?_⟩
        intro j hj
        simp only [capturedSquares, List.tail_cons, List.zip_cons_cons, List.zip_nil_right,
          List.map_cons, List.map_nil, List.mem_singleton, hmid] at hj
        subst hj
        exact hnotin
      · split at hc
        · simp only [List.mem_singleton] at hc
          subst hc
          refine ⟨by simp [capturedSquares], ?_⟩
          intro j hj
          simp only [capturedSquares, List.tail_cons, List.zip_cons_cons, List.zip_nil_right,
            List.map_cons, List.map_nil, List.mem_singleton, hmid] at hj
          subst hj
          exact hnotin
        · rw [List.mem_map] at hc
          obtain ⟨s, hs, rfl⟩ := hc
          obtain ⟨j', s', hshape⟩ := jumpHelper_shape b turn caps n p.2 (p.1 :: cap) s hs
          have ihs := ih p.2 (p.1 :: cap) s hs
          have hexp : capturedSquares (sq :: s) = p.1 :: capturedSquares s := by
            subst hshape
            simp [capturedSquares, hmid]
          rw [hexp]
          constructor
          · rw [List.nodup_cons]
            exact ⟨fun hmem => (ihs.2 p.1 hmem) (List.mem_cons_self _ _), ihs.1⟩
          · intro j hj
            rcases List.mem_cons.mp hj with rfl | hj'
            · exact hnotin
            · exact fun hjc => (ihs.2 j hj') (List.mem_cons_of_mem _ hjc)
    case isFalse => exact absurd hc (List.not_mem_nil c)

/-- A valid capture-table entry at the call's square guarantees the generator
yields at least one chain. -/
lemma jumpHelper_ne_nil {b : Board} {turn : Bool} {caps : Nat → List (Nat × Nat)}
    {fuel square : Nat} {captured : List Nat} {p : Nat × Nat}
    (hp : p ∈ caps square) (hv : validTarget b turn captured p = true) :
    jumpHelper b turn caps (fuel + 1) square captured ≠ [] := by
  have hmem : ∃ c, c ∈ jumpHelper b turn caps (fuel + 1) square captured := by
    rw [jumpHelper_succ]
    by_cases hk : (!isKing (b.getD square ' ') && (square / 8 == 7 * turnNat turn)) = true
    · exact ⟨[square, p.2], List.mem_flatMap.mpr ⟨p, hp, by
        rw [if_pos hv, if_pos hk]; exact List.mem_singleton.mpr rfl⟩⟩
    · by_cases he : (jumpHelper b turn caps fuel p.2 (p.1 :: captured)).isEmpty = true
      · exact ⟨[square, p.2], List.mem_flatMap.mpr ⟨p, hp, by
          rw [if_pos hv, if_neg hk, if_pos he]; exact List.mem_singleton.mpr rfl⟩⟩
      · have hne : jumpHelper b turn caps fuel p.2 (p.1 :: captured) ≠ [] := by
          intro hnil
          exact he (by rw [hnil]; rfl)
        obtain ⟨s, hs⟩ := List.exists_mem_of_ne_nil _ hne
        exact ⟨square :: s, List.mem_flatMap.mpr ⟨p, hp, by
          rw [if_pos hv, if_neg hk, if_neg he]; exact List.mem_map_of_mem _ hs⟩⟩
  obtain ⟨c, hc⟩ := hmem
  intro hnil
  rw [hnil] at hc
  exact absurd hc (List.not_mem_nil c)

/-- A position with a capture available generates at least one jump chain. -/
lemma jumpsIdx_ne_nil_of_captureAvailable {st : GameState} (h : captureAvailable st) :
    jumpsIdx st ≠ [] := by
  obtain ⟨i, hi, p, hp, h1, h2⟩ := h
  have hv : validTarget st.board st.turn [] p = true := by
    unfold validTarget
    rw [h1, h2]
    simp
  have hne : jumpsFromIdx st.board st.turn i ≠ [] :=
    @jumpHelper_ne_nil _ _ _ 64 _ _ _ hp hv
  obtain ⟨c, hc⟩ := List.exists_mem_of_ne_nil _ hne
  intro hnil
  have hcm : c ∈ jumpsIdx st := List.mem_flatMap.mpr ⟨i, hi, hc⟩
  rw [hnil] at hcm
  exact absurd hcm (List.not_mem_nil c)

/-! ### Facts feeding the light-square invariant -/

lemma getD_set_ne (l : List Char) (j i : Nat) (v : Char) (h : j ≠ i) :
    (l.set j v).getD i ' ' = l.getD i ' ' := by
  simp [List.getD_eq_getElem?_getD, List.getElem?_set_ne h]

lemma getD_set_blank (l : List Char) (j i : Nat) (h : l.getD i ' ' = ' ') :
    (l.set j ' ').getD i ' ' = ' ' := by
  by_cases hij : j = i
  · subst hij
    by_cases hlt : j < l.length
    · simp [List.getD_eq_getElem?_getD, List.getElem?_set_self hlt]
    · rw [List.set_eq_of_length_le (by omega)]
      exact h
  · rw [getD_set_ne _ _ _ _ hij]
    exact h

lemma clearJumped_light {bb : Board} {pr : Nat × Nat} {i : Nat}
    (h : bb.getD i ' ' = ' ') : (clearJumped bb pr).getD i ' ' = ' ' := by
  simp only [clearJumped]
  split
  · exact getD_set_blank _ _ _ h
  · exact h

lemma foldl_clearJumped_light (prs : List (Nat × Nat)) (bb : Board) {i : Nat}
    (h : bb.getD i ' ' = ' ') : (prs.foldl clearJumped bb).getD i ' ' = ' ' := by
  induction prs generalizing bb with
  | nil => exact h
  | cons p t ih => exact ih _ (clearJumped_light h)

lemma getD_mem {c : List Nat} {k : Nat} (hk : k < c.length) : c.getD k 0 ∈ c := by
  have he : c.getD k 0 = c.get ⟨k, hk⟩ := by
    simp [List.getD_eq_getElem?_getD, List.getElem?_eq_getElem hk]
  rw [he]
  exact List.get_mem c k hk

lemma getD_of_mem {c : List Nat} {j : Nat} (h : j ∈ c) :
    ∃ k, k < c.length ∧ c.getD k 0 = j := by
  obtain ⟨k, hk, he⟩ := List.mem_iff_getElem.mp h
  exact ⟨k, hk, by
    rw [List.getD_eq_getElem?_getD, List.getElem?_eq_getElem hk]
    exact he⟩

/-- Coordinate round trip on board squares. -/
lemma xy_roundtrip : ∀ i, i < 64 → xy_to_i (i_to_xy i) = i := by decide

lemma sliced_chainStr : ∀ c : List Nat, sliced (chainStr c) = c.map i_to_xy := by
  intro c
  induction c with
  | nil => rfl
  | cons a t ih =>
    show sliced (COLS.getD (a % 8) 'a' :: ROWS.getD (a / 8) '8' :: chainStr t)
        = i_to_xy a :: t.map i_to_xy
    rw [sliced, ih]
    rfl

lemma map_xy_roundtrip : ∀ c : List Nat, (∀ j ∈ c, j < 64) →
    c.map (fun j => xy_to_i (i_to_xy j)) = c := by
  intro c
  induction c with
  | nil => intro _; rfl
  | cons a t ih =>
    intro h
    rw [List.map_cons, xy_roundtrip a (h a (List.mem_cons_self a t)),
      ih fun j hj => h j (List.mem_cons_of_mem a hj)]

/-- Parsing a rendered chain of board squares recovers the squares: `sliced`
into two-character blocks, then `_xy_to_i` each block. -/
lemma parse_chainStr {c : List Nat} (h : ∀ j ∈ c, j < 64) :
    (sliced (chainStr c)).map xy_to_i = c := by
  rw [sliced_chainStr, List.map_map]
  exact map_xy_roundtrip c h

lemma findAllPieces_spec {b : Board} {t : Bool} {i : Nat}
    (hi : i ∈ findAllPieces b (PIECES t)) :
    i < b.length ∧ (b.getD i ' ').toLower = PIECES t ∧ b.getD i ' ' ≠ ' ' := by
  simp only [findAllPieces, List.mem_filter, List.mem_range, beq_iff_eq] at hi
  refine ⟨hi.1, hi.2, ?_⟩
  intro hsp
  have h2 := hi.2
  rw [hsp] at h2
  cases t
  · exact absurd h2 (by decide)
  · exact absurd h2 (by decide)

/-- An occupied square of the side to move on a board whose light squares are
all empty is an on-board dark square. -/
lemma origin_dark {st : GameState} (hlen : st.board.length = 64)
    (hlight : ∀ i, i < 64 → (i / 8 + i % 8) % 2 = 0 → st.board.getD i ' ' = ' ')
    {i : Nat} (hi : i ∈ findAllPieces st.board (PIECES st.turn)) :
    i < 64 ∧ (i / 8 + i % 8) % 2 = 1 := by
  obtain ⟨h1, _, h3⟩ := findAllPieces_spec hi
  rw [hlen] at h1
  refine ⟨h1, ?_⟩
  by_contra hpar
  exact h3 (hlight i h1 (by omega))

/-- Every square of a generated jump chain is an on-board dark square. -/
lemma jumpsIdx_elems {st : GameState} (hlen : st.board.length = 64)
    (hlight : ∀ i, i < 64 → (i / 8 + i % 8) % 2 = 0 → st.board.getD i ' ' = ' ')
    {c : List Nat} (hc : c ∈ jumpsIdx st) :
    ∀ j ∈ c, j < 64 ∧ (j / 8 + j % 8) % 2 = 1 := by
  obtain ⟨i, hi, hci⟩ := List.mem_flatMap.mp hc
  have hio := origin_dark hlen hlight hi
  have hhead : c.getD 0 0 = i := by
    obtain ⟨j', s', rfl⟩ := jumpHelper_shape _ _ _ 65 i [] c hci
    rfl
  have hAll : ∀ k, k < c.length →
      (c.getD k 0) < 64 ∧ ((c.getD k 0) / 8 + (c.getD k 0) % 8) % 2 = 1 := by
    intro k
    induction k with
    | zero =>
      intro _
      rw [hhead]
      exact hio
    | succ n ihn =>
      intro hk
      have hn : n < c.length := Nat.lt_of_succ_lt hk
      obtain ⟨jo, hjo⟩ := jumpHelper_steps _ _ _ 65 i [] c hci n hk
      have hf := captures_pair_facts hjo
      dsimp only at hf
      have hprev := ihn hn
      have hpar := hf.2.2.2.2.2
      exact ⟨hf.2.1, by omega⟩
  intro j hj
  obtain ⟨k, hk, hkd⟩ := getD_of_mem hj
  rw [← hkd]
  exact hAll k hk

lemma mem_simpleMovesIdx {st : GameState} {c : List Nat} (hc : c ∈ simpleMovesIdx st) :
    ∃ i e2, c = [i, e2] ∧ i ∈ findAllPieces st.board (PIECES st.turn) ∧
      e2 ∈ MOVES (st.board.getD i ' ') i := by
  simp only [simpleMovesIdx, List.mem_flatMap, List.mem_map, List.mem_filter] at hc
  obtain ⟨i, hi, e2, ⟨he2, _⟩, hce⟩ := hc
  exact ⟨i, e2, hce.symm, hi, he2⟩

/-- Every square of a generated legal move is an on-board dark square. -/
lemma legalMovesIdx_elems {st : GameState} (hlen : st.board.length = 64)
    (hlight : ∀ i, i < 64 → (i / 8 + i % 8) % 2 = 0 → st.board.getD i ' ' = ' ')
    {c : List Nat} (hc : c ∈ legalMovesIdx st) :
    ∀ j ∈ c, j < 64 ∧ (j / 8 + j % 8) % 2 = 1 := by
  unfold legalMovesIdx at hc
  split at hc
  · obtain ⟨i, e2, rfl, hi, he2⟩ := mem_simpleMovesIdx hc
    have hio := origin_dark hlen hlight hi
    have hf := moves_dest_facts he2
    intro j hj
    rcases List.mem_cons.mp hj with rfl | hj2
    · exact hio
    · rcases List.mem_cons.mp hj2 with rfl | hj3
      · refine ⟨hf.1, ?_⟩
        have hpar := hf.2.1
        omega
      · exact absurd hj3 (List.not_mem_nil j)
  · exact jumpsIdx_elems hlen hlight hc

/-- Every generated legal move visits at least two squares. -/
lemma legalMovesIdx_length {st : GameState} {c : List Nat}
    (hc : c ∈ legalMovesIdx st) : 2 ≤ c.length := by
  unfold legalMovesIdx at hc
  split at hc
  · obtain ⟨i, e2, rfl, _, _⟩ := mem_simpleMovesIdx hc
    rfl
  · obtain ⟨i, hi, hci⟩ := List.mem_flatMap.mp hc
    obtain ⟨j', s', rfl⟩ := jumpHelper_shape _ _ _ 65 i [] c hci
    simp

/-! ### Claim theorems -/

/-- C1: the claim states that a chain moved by a piece that was a king before
the chain started is never cut short while a further valid jump exists.  The
code violates this (contradicting its own comment "Exception is if the piece
was already a king"): `is_king` is re-read from the board at the intermediate
landing square, which is empty, so a king's chain passing over the mover's own
back rank is cut.  On `bdKing` (white king c3, black men d2, f2, f4) the only
generated chain is c3-e1-g3 — cut after departing e1 (row index 7) — although
the further jump over f4 to e5 is valid from g3. -/
theorem claim1_king_chain_cut :
    jumpsIdx stKing = [[42, 60, 46]] ∧
      isKing (bdKing.getD 42 ' ') = true ∧
      (37, 28) ∈ CAPTURES (bdKing.getD 42 ' ') 46 ∧
      validTarget bdKing true (capturedSquares [42, 60, 46]) (37, 28) = true := by
  decide

/-- C2: the claim states that generated chains are maximal whenever the
man-departing-promotion-rank cutoff does not apply.  The code's cutoff tests
`square >> 3 == 7 * self.turn`, the mover's own back rank (row index 7 for
white), not the promotion rank (`7 * (not self.turn)`, used for crowning in
`Board.move`).  On `bdBackRank` (white man c1, black men d2 and f4) the single
legal move is the non-maximal chain c1-e3, although the further jump over f4
to g5 is valid from e3 and no square involved lies on white's promotion
rank (row index 0). -/
theorem claim2_nonmaximal_chain :
    jumpsIdx stBackRank = [[58, 44]] ∧
      legalMovesIdx stBackRank = [[58, 44]] ∧
      (37, 30) ∈ CAPTURES (bdBackRank.getD 58 ' ') 44 ∧
      validTarget bdBackRank true (capturedSquares [58, 44]) (37, 30) = true ∧
      58 / 8 ≠ promoRow true ∧ 44 / 8 ≠ promoRow true ∧
      isKing (bdBackRank.getD 58 ' ') = false := by
  decide

/-- C3: whenever a capture is available anywhere on the board for the side to
move, the legal-move set is exactly the jump chains, and every length-2 legal
sequence is a jump (origin/landing index distance 14 or 18) — so no simple
(distance 7 or 9) move is ever offered. -/
theorem claim3_forced_capture (st : GameState) (h : captureAvailable st) :
    legalMovesIdx st = jumpsIdx st ∧
      ∀ c ∈ legalMovesIdx st, c.length = 2 →
        max (c.getD 0 0) (c.getD 1 0) - min (c.getD 0 0) (c.getD 1 0) = 14 ∨
          max (c.getD 0 0) (c.getD 1 0) - min (c.getD 0 0) (c.getD 1 0) = 18 := by
  have hne := jumpsIdx_ne_nil_of_captureAvailable h
  have hemp : (jumpsIdx st).isEmpty = false := by
    cases hJ : jumpsIdx st with
    | nil => exact absurd hJ hne
    | cons a l => rfl
  have heq : legalMovesIdx st = jumpsIdx st := by
    unfold legalMovesIdx
    rw [hemp]
    rfl
  refine ⟨heq, ?_⟩
  intro c hc _hlen
  rw [heq] at hc
  obtain ⟨i, hi, hci⟩ := List.mem_flatMap.mp hc
  obtain ⟨jo, hjo⟩ := jumpHelper_steps _ _ _ 65 i [] c hci 0 (by
    obtain ⟨j, s, rfl⟩ := jumpHelper_shape _ _ _ 65 i [] c hci
    simp)
  exact (captures_pair_facts hjo).2.2.2.2.1

/-- Witness for C3 on a concrete position with a capture available. -/
theorem claim3_witness :
    captureAvailable stDouble ∧
      (legalMovesIdx stDouble = jumpsIdx stDouble ∧
        ∀ c ∈ legalMovesIdx stDouble, c.length = 2 →
          max (c.getD 0 0) (c.getD 1 0) - min (c.getD 0 0) (c.getD 1 0) = 14 ∨
            max (c.getD 0 0) (c.getD 1 0) - min (c.getD 0 0) (c.getD 1 0) = 18) :=
  ⟨by decide, claim3_forced_capture stDouble (by decide)⟩

/-- C4: a capture chain generated for a man of the side to move never
continues past a square on that man's promotion rank: any chain square on the
promotion rank is the chain's last square (a man's capture table is empty
there, so no further jump is ever appended). -/
theorem claim4_promotion_stops_chain (st : GameState) (c : List Nat)
    (hc : c ∈ jumpsIdx st)
    (hman : st.board.getD (c.getD 0 0) ' ' = PIECES st.turn) :
    ∀ k, k < c.length → (c.getD k 0) / 8 = promoRow st.turn → k = c.length - 1 := by
  intro k hk hrow
  by_contra hne
  have hk1 : k + 1 < c.length := by omega
  obtain ⟨i, hi, hci⟩ := List.mem_flatMap.mp hc
  have hhead : c.getD 0 0 = i := by
    obtain ⟨j, s, rfl⟩ := jumpHelper_shape _ _ _ 65 i [] c hci
    rfl
  obtain ⟨jo, hjo⟩ := jumpHelper_steps _ _ _ 65 i [] c hci k hk1
  rw [hhead] at hman
  rw [hman] at hjo
  exact captures_man_row hjo hrow

/-- Witness for C4: the chain c6xa8 of a white man lands on the promotion rank
(row index 0) at its final square. -/
theorem claim4_witness :
    [18, 0] ∈ jumpsIdx stPromote ∧
      (bdPromote.getD (([18, 0] : List Nat).getD 0 0) ' ' = PIECES stPromote.turn) ∧
      1 = ([18, 0] : List Nat).length - 1 :=
  ⟨by decide, by decide,
    claim4_promotion_stops_chain stPromote [18, 0] (by decide) (by decide) 1
      (by decide) (by decide)⟩

/-- C5: within any single generated capture chain, the captured (jumped-over)
square indices — the consecutive-pair midpoints that `Board.move` later
blanks — are pairwise distinct. -/
theorem claim5_no_recapture (st : GameState) (c : List Nat) (hc : c ∈ jumpsIdx st) :
    (capturedSquares c).Nodup := by
  obtain ⟨i, hi, hci⟩ := List.mem_flatMap.mp hc
  exact (jumpHelper_nodup _ _ _
    (fun s p hp => (captures_pair_facts hp).2.2.1) 65 i [] c hci).1

/-- Witness for C5 on the double-jump chain c3xe5xg7. -/
theorem claim5_witness :
    [42, 28, 14] ∈ jumpsIdx stDouble ∧ (capturedSquares [42, 28, 14]).Nodup :=
  ⟨by decide, claim5_no_recapture stDouble [42, 28, 14] (by decide)⟩

/-- C6: `Board.move` raises exactly when the given text is not one of the
generated legal moves; the raise happens before any mutation, so the state it
leaves behind is the entering state; and every generated legal move is
accepted. -/
theorem claim6_illegal_move (st : GameState) (mv : List Char) :
    ((∃ st0, move st mv = Except.error st0) ↔ mv ∉ legal_moves st) ∧
      (∀ st0, move st mv = Except.error st0 → st0 = st) ∧
      (mv ∈ legal_moves st → move st mv = Except.ok (applyMove st mv)) := by
  by_cases h : mv ∈ legal_moves st <;> simp [move, h]

/-- Witness for C6: the opening move a3-b4 is accepted from the start
position. -/
theorem claim6_witness :
    (['a', '3', 'b', '4'] ∈ legal_moves initGS) ∧
      move initGS ['a', '3', 'b', '4'] =
        Except.ok (applyMove initGS ['a', '3', 'b', '4']) :=
  ⟨by decide, (claim6_illegal_move initGS ['a', '3', 'b', '4']).2.2 (by decide)⟩

/-- C7: a successful application increments the ply counter by exactly one and
flips the side to move, whatever the move's length. -/
theorem claim7_ply_and_turn (st : GameState) (mv : List Char) (st1 : GameState)
    (h : move st mv = Except.ok st1) :
    st1.half_moves = st.half_moves + 1 ∧ st1.turn = !st.turn := by
  unfold move at h
  by_cases hm : mv ∈ legal_moves st
  · rw [if_pos hm] at h
    simp only [Except.ok.injEq] at h
    subst h
    exact ⟨rfl, rfl⟩
  · rw [if_neg hm] at h
    exact absurd h (by simp)

/-- Witness for C7 on the opening move a3-b4. -/
theorem claim7_witness :
    move initGS ['a', '3', 'b', '4'] =
        Except.ok (applyMove initGS ['a', '3', 'b', '4']) ∧
      (applyMove initGS ['a', '3', 'b', '4']).half_moves = initGS.half_moves + 1 ∧
      (applyMove initGS ['a', '3', 'b', '4']).turn = !initGS.turn := by
  have hm : ['a', '3', 'b', '4'] ∈ legal_moves initGS := by decide
  have hmv : move initGS ['a', '3', 'b', '4'] =
      Except.ok (applyMove initGS ['a', '3', 'b', '4']) := by
    simp [move, hm]
  exact ⟨hmv, claim7_ply_and_turn initGS ['a', '3', 'b', '4'] _ hmv⟩

/-- C8: the light-square invariant: in the starting board every index with an
even row-plus-column sum holds the empty cell, and applying any legal move to
a 64-cell board whose light squares are all empty leaves every light square
empty (capture midpoints and the vacated origin are written blank, and the
moved piece lands on a dark square). -/
theorem claim8_light_squares :
    (∀ i, i < 64 → (i / 8 + i % 8) % 2 = 0 → STARTING_BOARD.getD i ' ' = ' ') ∧
      ∀ (st : GameState) (mv : List Char),
        st.board.length = 64 →
        (∀ i, i < 64 → (i / 8 + i % 8) % 2 = 0 → st.board.getD i ' ' = ' ') →
        mv ∈ legal_moves st →
        ∀ i, i < 64 → (i / 8 + i % 8) % 2 = 0 →
          (applyMove st mv).board.getD i ' ' = ' ' := by
  refine ⟨by decide, ?_⟩
  intro st mv hlen hlight hmv i hi hpar
  obtain ⟨c, hcm, rfl⟩ := List.mem_map.mp hmv
  have helems := legalMovesIdx_elems hlen hlight hcm
  have h64 : ∀ j ∈ c, j < 64 := fun j hj => (helems j hj).1
  have hlen2 := legalMovesIdx_length hcm
  have heSqmem : c.getD (c.length - 1) 0 ∈ c := getD_mem (by omega)
  have heF := helems _ heSqmem
  have hne : c.getD (c.length - 1) 0 ≠ i := by
    intro he
    rw [he] at heF
    omega
  unfold applyMove
  rw [parse_chainStr h64]
  dsimp only
  rw [getD_set_ne _ _ _ _ hne]
  exact getD_set_blank _ _ _ (foldl_clearJumped_light _ _ (hlight i hi hpar))

/-- Witness for C8: the starting position is light-square empty, and after the
legal opening a3-b4 the light square a1 (index 56 is dark; index 0, row 0
column 0, is light) is still empty. -/
theorem claim8_witness :
    (∀ i, i < 64 → (i / 8 + i % 8) % 2 = 0 → STARTING_BOARD.getD i ' ' = ' ') ∧
      initGS.board.length = 64 ∧
      (['a', '3', 'b', '4'] ∈ legal_moves initGS) ∧
      (applyMove initGS ['a', '3', 'b', '4']).board.getD 0 ' ' = ' ' :=
  ⟨claim8_light_squares.1, by decide, by decide,
    claim8_light_squares.2 initGS ['a', '3', 'b', '4'] (by decide) (by decide)
      (by decide) 0 (by decide) (by decide)⟩

/-- C9: from the standard start position the generator yields no capture
chain and exactly the seven forward diagonal steps of the front-row men,
rendered in coordinate notation. -/
theorem claim9_initial_moves :
    jumpsIdx initGS = [] ∧
      legalMovesIdx initGS =
        [[40, 33], [42, 33], [42, 35], [44, 35], [44, 37], [46, 37], [46, 39]] ∧
      legal_moves initGS =
        [['a', '3', 'b', '4'], ['c', '3', 'b', '4'], ['c', '3', 'd', '4'],
         ['e', '3', 'd', '4'], ['e', '3', 'f', '4'], ['g', '3', 'f', '4'],
         ['g', '3', 'h', '4']] ∧
      (legal_moves initGS).length = 7 := by
  decide

/-- C10: a capture chain generated for a man of the side to move standing on
its own home back rank (`square >> 3 == 7 * turn`: row index 0 for black, row
index 7 for white) is always a single jump — the generator yields the jump
without exploring any continuation. -/
theorem claim10_back_rank_single_jump (b : Board) (t : Bool) (square : Nat)
    (hman : b.getD square ' ' = PIECES t) (hrow : square / 8 = 7 * turnNat t) :
    ∀ c ∈ jumpsFromIdx b t square, c.length = 2 := by
  intro c hc
  unfold jumpsFromIdx at hc
  rw [show (65 : Nat) = 64 + 1 from rfl, jumpHelper_succ, List.mem_flatMap] at hc
  obtain ⟨p, hp, hc⟩ := hc
  have hcut : (!isKing (b.getD square ' ') && (square / 8 == 7 * turnNat t)) = true := by
    rw [hman, hrow]
    cases t <;> decide
  rw [if_pos hcut] at hc
  split at hc
  · simp only [List.mem_singleton] at hc
    subst hc
    rfl
  · exact absurd hc (List.not_mem_nil c)

/-- Witness for C10: the white man on c1 (its own back rank) generates exactly
the single jump c1-e3 even though a continuation would be geometrically
available. -/
theorem claim10_witness :
    (bdBackRank.getD 58 ' ' = PIECES true) ∧ (58 / 8 = 7 * turnNat true) ∧
      ([58, 44] : List Nat).length = 2 :=
  ⟨by decide, by decide,
    claim10_back_rank_single_jump bdBackRank true 58 (by decide) (by decide)
      [58, 44] (by decide)⟩

end Checkers
